import Mathlib

/-!
# HASH256_PTX — verification of the spec against the code

This file embeds, as Lean definitions, the parts of the HASH256_PTX
repository that the checked claims are about:

* the CPU reference SHA-256 engine (`src/sha256.cpp`): the `SHA256` class
  with `Init`, `Update`, `Final`, `Transform` and the one-shot `Hash`;
* the batch dispatcher `PTX_SHA256::hash_batch`
  (`include/ptx_sha256.hpp`), with the CUDA driver calls modelled as an
  environment of success/failure outcomes and an explicit device-memory
  state;
* the per-lane GPU program, which lives in the generated PTX kernel
  (`ptx/sha256_kernel_full.ptx`, not part of the source tree here) and is
  therefore modelled from the spec.

Bytes and 32-bit words are embedded as `Nat` with explicit reduction
modulo `2^32` (written `4294967296`) exactly where the C++ `uint32_t`
arithmetic wraps.
-/

/-! ## 32-bit word primitives (src/sha256.cpp lines 8–14) -/

/-- `uint32_t` modulus. -/
def M32 : Nat := 4294967296

/-- `ROR(x, n)`: `((x) >> (n)) | ((x) << (32 - (n)))` on `uint32_t`.
The left shift wraps modulo `2^32`. -/
def ror32 (x n : Nat) : Nat := (x >>> n) ||| ((x <<< (32 - n)) % M32)

/-- `CH(x, y, z) = (x & y) ^ (~x & z)`; `~x` on `uint32_t` is `x ^ 0xffffffff`. -/
def ch (x y z : Nat) : Nat := (x &&& y) ^^^ ((x ^^^ 4294967295) &&& z)

/-- `MAJ(x, y, z) = (x & y) ^ (x & z) ^ (y & z)`. -/
def maj (x y z : Nat) : Nat := (x &&& y) ^^^ (x &&& z) ^^^ (y &&& z)

/-- `EP0(x) = ROR(x,2) ^ ROR(x,13) ^ ROR(x,22)` (the round function Σ0). -/
def ep0 (x : Nat) : Nat := ror32 x 2 ^^^ ror32 x 13 ^^^ ror32 x 22

/-- `EP1(x) = ROR(x,6) ^ ROR(x,11) ^ ROR(x,25)` (the round function Σ1). -/
def ep1 (x : Nat) : Nat := ror32 x 6 ^^^ ror32 x 11 ^^^ ror32 x 25

/-- `SIG0(x) = ROR(x,7) ^ ROR(x,18) ^ (x >> 3)` (the schedule function σ0). -/
def sig0 (x : Nat) : Nat := ror32 x 7 ^^^ ror32 x 18 ^^^ (x >>> 3)

/-- `SIG1(x) = ROR(x,17) ^ ROR(x,19) ^ (x >> 10)` (the schedule function σ1). -/
def sig1 (x : Nat) : Nat := ror32 x 17 ^^^ ror32 x 19 ^^^ (x >>> 10)

/-- The 64 round constants `K[64]` (src/sha256.cpp lines 16–25). -/
def Kconst : List Nat :=
  [0x428a2f98, 0x71374491, 0xb5c0fbcf, 0xe9b5dba5, 0x3956c25b, 0x59f111f1, 0x923f82a4, 0xab1c5ed5] ++
  [0xd807aa98, 0x12835b01, 0x243185be, 0x550c7dc3, 0x72be5d74, 0x80deb1fe, 0x9bdc06a7, 0xc19bf174] ++
  [0xe49b69c1, 0xefbe4786, 0x0fc19dc6, 0x240ca1cc, 0x2de92c6f, 0x4a7484aa, 0x5cb0a9dc, 0x76f988da] ++
  [0x983e5152, 0xa831c66d, 0xb00327c8, 0xbf597fc7, 0xc6e00bf3, 0xd5a79147, 0x06ca6351, 0x14292967] ++
  [0x27b70a85, 0x2e1b2138, 0x4d2c6dfc, 0x53380d13, 0x650a7354, 0x766a0abb, 0x81c2c92e, 0x92722c85] ++
  [0xa2bfe8a1, 0xa81a664b, 0xc24b8b70, 0xc76c51a3, 0xd192e819, 0xd6990624, 0xf40e3585, 0x106aa070] ++
  [0x19a4c116, 0x1e376c08, 0x2748774c, 0x34b0bcb5, 0x391c0cb3, 0x4ed8aa4a, 0x5b9cca4f, 0x682e6ff3] ++
  [0x748f82ee, 0x78a5636f, 0x84c87814, 0x8cc70208, 0x90befffa, 0xa4506ceb, 0xbef9a3f7, 0xc67178f2]

/-- The fixed initial hash state set by `SHA256::Init` (src/sha256.cpp lines 31–40). -/
def initHash : List Nat :=
  [0x6a09e667, 0xbb67ae85, 0x3c6ef372, 0xa54ff53a, 0x510e527f, 0x9b05688c, 0x1f83d9ab, 0x5be0cd19]

/-! ## Message schedule (src/sha256.cpp lines 46–52) -/

/-- `m[i] = (data[j] << 24) | (data[j+1] << 16) | (data[j+2] << 8) | (data[j+3])`
with `j = 4*i`: the `i`-th big-endian 32-bit group of the block. -/
def beWord (data : List Nat) (i : Nat) : Nat :=
  (data.getD (4 * i) 0 <<< 24) ||| (data.getD (4 * i + 1) 0 <<< 16) |||
  (data.getD (4 * i + 2) 0 <<< 8) ||| data.getD (4 * i + 3) 0

/-- The first loop of `SHA256::Transform`: `m[0..15]` from the block. -/
def initW (data : List Nat) : List Nat := (List.range 16).map (beWord data)

/-- One iteration of the second loop of `SHA256::Transform`: with `i` the
current length of `ws`, append `m[i] = SIG1(m[i-2]) + m[i-7] + SIG0(m[i-15]) + m[i-16]`
(wrapping `uint32_t` sums). -/
def schedStep (ws : List Nat) : List Nat :=
  ws ++ [(sig1 (ws.getD (ws.length - 2) 0) + ws.getD (ws.length - 7) 0 +
          sig0 (ws.getD (ws.length - 15) 0) + ws.getD (ws.length - 16) 0) % M32]

/-- Iterate `schedStep`. -/
def schedExtend (ws : List Nat) : Nat → List Nat
  | 0 => ws
  | n + 1 => schedExtend (schedStep ws) n

/-- The full message schedule `m[0..63]` built by `SHA256::Transform`
(lines 46–52): sixteen big-endian words followed by 48 recurrence steps. -/
def msgSchedule (data : List Nat) : List Nat := schedExtend (initW data) 48

/-! ## Compression rounds (src/sha256.cpp lines 54–87) -/

/-- The eight working variables `a..h` of `SHA256::Transform`. -/
structure Work where
  a : Nat
  b : Nat
  c : Nat
  d : Nat
  e : Nat
  f : Nat
  g : Nat
  h : Nat
deriving DecidableEq, Repr

/-- One iteration of the main loop (lines 65–76):
`t1 = h + EP1(e) + CH(e,f,g) + K[i] + m[i]`, `t2 = EP0(a) + MAJ(a,b,c)`,
then the register shift, all sums wrapping modulo `2^32`. -/
def roundStep (w : Work) (k : Nat) (m : Nat) : Work :=
  let t1 := (w.h + ep1 w.e + ch w.e w.f w.g + k + m) % M32
  let t2 := (ep0 w.a + maj w.a w.b w.c) % M32
  { a := (t1 + t2) % M32, b := w.a, c := w.b, d := w.c,
    e := (w.d + t1) % M32, f := w.e, g := w.f, h := w.g }

/-- Lines 55–62: initialize the working variables from the hash state. -/
def workInit (st : List Nat) : Work :=
  { a := st.getD 0 0, b := st.getD 1 0, c := st.getD 2 0, d := st.getD 3 0,
    e := st.getD 4 0, f := st.getD 5 0, g := st.getD 6 0, h := st.getD 7 0 }

/-- Lines 79–86: add the compressed chunk into the hash state (`state[i] += …`,
wrapping `uint32_t` addition). -/
def addBack (st : List Nat) (w : Work) : List Nat :=
  [(st.getD 0 0 + w.a) % M32, (st.getD 1 0 + w.b) % M32,
   (st.getD 2 0 + w.c) % M32, (st.getD 3 0 + w.d) % M32,
   (st.getD 4 0 + w.e) % M32, (st.getD 5 0 + w.f) % M32,
   (st.getD 6 0 + w.g) % M32, (st.getD 7 0 + w.h) % M32]

/-! ## The SHA256 class (src/sha256.cpp) -/

/-- `SHA256::Transform(data)`: it reads and writes only `this->state`, so it
is embedded as a pure map from the 8-word state and the 64-byte block to the
new state. -/
def SHA256.Transform (state : List Nat) (data : List Nat) : List Nat :=
  let m := msgSchedule data
  addBack state ((List.zip Kconst m).foldl (fun w km => roundStep w km.1 km.2) (workInit state))

/-- The member fields of the C++ `SHA256` class: `state[8]`, `count`, and the
64-byte `buffer`. -/
structure SHA256 where
  state : List Nat
  count : Nat
  buffer : List Nat
deriving DecidableEq, Repr

/-- `memcpy(buf + off, src, src.length)` into a fixed-size byte buffer:
overwrite `buf[off + k]` with `src[k]` (truncating at the end of `buf`;
every call site in the embedded paths stays in bounds). -/
def setBytes : List Nat → Nat → List Nat → List Nat
  | [], _, _ => []
  | b :: bs, 0, [] => b :: bs
  | _ :: bs, 0, s :: ss => s :: setBytes bs 0 ss
  | b :: bs, o + 1, src => b :: setBytes bs o src

/-- `SHA256::Init` (lines 31–41) sets `state` and `count`; the constructor
leaves `buffer` uninitialized, so the embedding takes its initial (junk)
contents as the argument `buf0`. -/
def SHA256.Init (buf0 : List Nat) : SHA256 :=
  { state := initHash, count := 0, buffer := buf0 }

/-- The inner loop of `SHA256::Update` (lines 101–103): process consecutive
full 64-byte blocks of `data` starting at offset `i` while `i + 64 <= len`,
returning the final state and the final offset. -/
def processBlocks (st : List Nat) (data : List Nat) (i : Nat) : List Nat × Nat :=
  if i + 64 ≤ data.length then
    processBlocks (SHA256.Transform st ((data.drop i).take 64)) data (i + 64)
  else (st, i)
termination_by data.length + 64 - i
decreasing_by omega

/-- `SHA256::Update` (lines 89–110). -/
def SHA256.Update (s : SHA256) (data : List Nat) : SHA256 :=
  let len := data.length
  let bufferSpace := 64 - s.count % 64
  let count' := s.count + len
  if len ≥ bufferSpace then
    let buf1 := setBytes s.buffer (64 - bufferSpace) (data.take bufferSpace)
    let st1 := SHA256.Transform s.state buf1
    let si := processBlocks st1 data bufferSpace
    { state := si.1, count := count',
      buffer := setBytes buf1 0 (data.drop si.2) }
  else
    { state := s.state, count := count',
      buffer := setBytes s.buffer (64 - bufferSpace) data }

/-- The loop of `SHA256::Final` at lines 129–132: for `j = 7` down to `0`,
`buffer[56 + j] = bitCount & 0xff; bitCount >>= 8`. -/
def writeLen : List Nat → Nat → Nat → List Nat
  | buf, _, 0 => buf
  | buf, bc, j + 1 => writeLen (setBytes buf (56 + j) [bc &&& 255]) (bc >>> 8) j

/-- Lines 137–142 of `SHA256::Final`: serialize the 8 state words as 32
big-endian bytes. -/
def stateToBytes (st : List Nat) : List Nat :=
  (List.range 8).flatMap fun i =>
    [(st.getD i 0 >>> 24) &&& 255, (st.getD i 0 >>> 16) &&& 255,
     (st.getD i 0 >>> 8) &&& 255, st.getD i 0 &&& 255]

/-- `SHA256::Final` (lines 112–143), returning the 32 digest bytes. -/
def SHA256.Final (s : SHA256) : List Nat :=
  let i := s.count % 64
  let buf1 := setBytes s.buffer i [0x80]
  let i := i + 1
  if i > 56 then
    let buf2 := setBytes buf1 i (List.replicate (64 - i) 0)
    let st1 := SHA256.Transform s.state buf2
    let buf3 := setBytes buf2 0 (List.replicate 56 0)
    let buf4 := writeLen buf3 (s.count * 8 % 18446744073709551616) 8
    stateToBytes (SHA256.Transform st1 buf4)
  else
    let buf2 := setBytes buf1 i (List.replicate (56 - i) 0)
    let buf3 := writeLen buf2 (s.count * 8 % 18446744073709551616) 8
    stateToBytes (SHA256.Transform s.state buf3)

/-- `SHA256::Hash(data, len, hash)` (lines 145–149): one-shot hash of `data`.
`buf0` is the uninitialized contents of the fresh object's `buffer`. -/
def SHA256.Hash (buf0 : List Nat) (data : List Nat) : List Nat :=
  SHA256.Final (SHA256.Update (SHA256.Init buf0) data)

/-! ## Spec-side reference: FIPS 180-4 SHA-256

The following definitions are written from the spec's own wording
(spec.md §4.1 Padding Module, §4.2 Compression Core, §4.3 Lane Program),
to be compared against the definitions embedded from `src/sha256.cpp`
above. -/

/-- The spec's message schedule as a recurrence (spec.md §4.2 step 2):
`W[i]` is the `i`-th big-endian word of the block for `i < 16` and
`σ1(W[i-2]) + W[i-7] + σ0(W[i-15]) + W[i-16]` modulo `2^32` otherwise. -/
def specW (block : List Nat) : Nat → Nat
  | i =>
    if h : i < 16 then beWord block i
    else (sig1 (specW block (i - 2)) + specW block (i - 7) +
          sig0 (specW block (i - 15)) + specW block (i - 16)) % M32
termination_by i => i
decreasing_by all_goals omega

/-- The spec's round loop (spec.md §4.2 step 4), written as an indexed
recursion: apply rounds `i, i+1, …, i+fuel-1`. -/
def specRoundsFrom (ks ws : Nat → Nat) (i : Nat) : Nat → Work → Work
  | 0, w => w
  | fuel + 1, w => specRoundsFrom ks ws (i + 1) fuel (roundStep w (ks i) (ws i))

/-- The spec's Compression Core (spec.md §4.2): build the schedule, run the
64 rounds from the working variables initialized from the hash state, then
fold the result back by wrapping addition. -/
def specCompress (st : List Nat) (block : List Nat) : List Nat :=
  addBack st (specRoundsFrom (fun i => Kconst.getD i 0) (specW block) 0 64 (workInit st))

/-- Big-endian 64-bit encoding of `n` (the padding's length field). -/
def beBytes64 (n : Nat) : List Nat :=
  [(n >>> 56) &&& 255, (n >>> 48) &&& 255, (n >>> 40) &&& 255, (n >>> 32) &&& 255,
   (n >>> 24) &&& 255, (n >>> 16) &&& 255, (n >>> 8) &&& 255, n &&& 255]

/-- FIPS 180-4 padding of a message: append `0x80`, then the least number of
zero bytes making the length 56 modulo 64, then the 64-bit big-endian bit
length. -/
def fipsPad (msg : List Nat) : List Nat :=
  msg ++ 0x80 :: (List.replicate ((119 - msg.length % 64) % 64) 0 ++ beBytes64 (msg.length * 8))

/-- Split a byte string into consecutive 64-byte blocks. -/
def chunks64 (l : List Nat) : List (List Nat) :=
  if h : l = [] then [] else l.take 64 :: chunks64 (l.drop 64)
termination_by l.length
decreasing_by
  have : 0 < l.length := List.length_pos.mpr h
  simp [List.length_drop]; omega

/-- The FIPS 180-4 SHA-256 digest of a message: compress the padded blocks
in order starting from the initial hash constants, and serialize the final
state big-endian. -/
def fipsSha256 (msg : List Nat) : List Nat :=
  stateToBytes ((chunks64 (fipsPad msg)).foldl specCompress initHash)

/-- Modelled from the spec: the per-lane GPU program of the generated PTX
kernel (`ptx/sha256_kernel_full.ptx`, produced by `generate_sha256_ptx.py`;
neither file is in the source tree). Spec.md §4.1 and §4.3: pad the 33-byte
record with `0x80`, 22 zero bytes and the fixed big-endian bit length 264,
apply one compression from the initial constants, serialize big-endian. -/
def laneHash (rec : List Nat) : List Nat :=
  stateToBytes (specCompress initHash
    (rec ++ 0x80 :: (List.replicate 22 0 ++ [0, 0, 0, 0, 0, 0, 1, 8])))

/-- The test vector of `tests/test_ptx_sha256.cpp` (the compressed public
key of private key 1). -/
def testPubkey : List Nat :=
  [0x02, 0x79, 0xBE, 0x66, 0x7E, 0xF9, 0xDC, 0xBB, 0xAC, 0x55, 0xA0, 0x62,
   0x95, 0xCE, 0x87, 0x0B, 0x07, 0x02, 0x9B, 0xFC, 0xDB, 0x2D, 0xCE, 0x28,
   0xD9, 0x59, 0xF2, 0x81, 0x5B, 0x16, 0xF8, 0x17, 0x98]

/-- The expected digest `0f715baf…0554` of `testPubkey`. -/
def testDigest : List Nat :=
  [0x0f, 0x71, 0x5b, 0xaf, 0x5d, 0x4c, 0x2e, 0xd3, 0x29, 0x78, 0x5c, 0xef,
   0x29, 0xe5, 0x62, 0xf7, 0x34, 0x88, 0xc8, 0xa2, 0xbb, 0x9d, 0xbc, 0x57,
   0x00, 0xb3, 0x61, 0xd5, 0x4b, 0x9b, 0x05, 0x54]

/-- The single padded block of `testPubkey`. -/
def paddedTestBlock : List Nat :=
  testPubkey ++ 0x80 :: (List.replicate 22 0 ++ [0, 0, 0, 0, 0, 0, 1, 8])

/-! ## Lemmas: `setBytes` and `writeLen` -/

theorem setBytes_length (buf : List Nat) (off : Nat) (src : List Nat) :
    (setBytes buf off src).length = buf.length := by
  induction buf generalizing off src with
  | nil => simp [setBytes]
  | cons b bs ih =>
    cases off with
    | zero =>
      cases src with
      | nil => simp [setBytes]
      | cons s ss => simp [setBytes, ih]
    | succ o => simp [setBytes, ih]

theorem setBytes_getD_lt (buf : List Nat) (off : Nat) (src : List Nat) (k : Nat)
    (hk : k < off) : (setBytes buf off src).getD k 0 = buf.getD k 0 := by
  induction buf generalizing off src k with
  | nil => simp [setBytes]
  | cons b bs ih =>
    cases off with
    | zero => omega
    | succ o =>
      cases k with
      | zero => simp [setBytes]
      | succ k' => simpa [setBytes] using ih o src k' (by omega)

theorem setBytes_getD_ge (buf : List Nat) (off : Nat) (src : List Nat) (k : Nat)
    (hk : off + src.length ≤ k) : (setBytes buf off src).getD k 0 = buf.getD k 0 := by
  induction buf generalizing off src k with
  | nil => simp [setBytes]
  | cons b bs ih =>
    cases off with
    | zero =>
      cases src with
      | nil => simp [setBytes]
      | cons s ss =>
        cases k with
        | zero => simp at hk
        | succ k' => simpa [setBytes] using ih 0 ss k' (by simp at hk; omega)
    | succ o =>
      cases k with
      | zero => omega
      | succ k' => simpa [setBytes] using ih o src k' (by omega)

theorem setBytes_getD_mid (buf : List Nat) (off : Nat) (src : List Nat) (k : Nat)
    (h1 : off ≤ k) (h2 : k < off + src.length) (h3 : k < buf.length) :
    (setBytes buf off src).getD k 0 = src.getD (k - off) 0 := by
  induction buf generalizing off src k with
  | nil => simp at h3
  | cons b bs ih =>
    cases off with
    | zero =>
      cases src with
      | nil => simp at h2
      | cons s ss =>
        cases k with
        | zero => simp [setBytes]
        | succ k' =>
          simpa [setBytes] using ih 0 ss k' (by omega) (by simp at h2 ⊢; omega) (by simp at h3; omega)
    | succ o =>
      cases k with
      | zero => omega
      | succ k' =>
        have := ih o src k' (by omega) (by omega) (by simp at h3; omega)
        simpa [setBytes, Nat.succ_sub_succ] using this

theorem writeLen_length (buf : List Nat) (bc n : Nat) :
    (writeLen buf bc n).length = buf.length := by
  induction n generalizing buf bc with
  | zero => rfl
  | succ n ih => simp [writeLen, ih, setBytes_length]

theorem writeLen_getD_lt (buf : List Nat) (bc n k : Nat) (hk : k < 56) :
    (writeLen buf bc n).getD k 0 = buf.getD k 0 := by
  induction n generalizing buf bc with
  | zero => rfl
  | succ n ih =>
    rw [writeLen, ih, setBytes_getD_lt _ _ _ _ (by omega)]

/-! ## Lemmas: the message schedule -/

theorem schedStep_length (ws : List Nat) : (schedStep ws).length = ws.length + 1 := by
  simp [schedStep]

theorem schedExtend_length (ws : List Nat) (n : Nat) :
    (schedExtend ws n).length = ws.length + n := by
  induction n generalizing ws with
  | zero => rfl
  | succ n ih => rw [schedExtend, ih, schedStep_length]; omega

theorem schedExtend_getD_lt (ws : List Nat) (n k : Nat) (hk : k < ws.length) :
    (schedExtend ws n).getD k 0 = ws.getD k 0 := by
  induction n generalizing ws with
  | zero => rfl
  | succ n ih =>
    rw [schedExtend, ih _ (by rw [schedStep_length]; omega)]
    exact List.getD_append _ _ _ _ hk

theorem schedExtend_getD_rec (ws : List Nat) (n : Nat) (h16 : 16 ≤ ws.length) :
    ∀ k, ws.length ≤ k → k < ws.length + n →
    (schedExtend ws n).getD k 0 =
      (sig1 ((schedExtend ws n).getD (k - 2) 0) + (schedExtend ws n).getD (k - 7) 0 +
       sig0 ((schedExtend ws n).getD (k - 15) 0) + (schedExtend ws n).getD (k - 16) 0) % M32 := by
  induction n generalizing ws with
  | zero => intro k h1 h2; omega
  | succ n ih =>
    intro k h1 h2
    rcases Nat.eq_or_lt_of_le h1 with hk | hk
    · subst hk
      rw [schedExtend]
      have hs : (schedStep ws).length = ws.length + 1 := schedStep_length ws
      have hpref : ∀ j, j < ws.length → (schedStep ws).getD j 0 = ws.getD j 0 := by
        intro j hj
        rw [schedStep]
        exact List.getD_append _ _ _ _ hj
      rw [schedExtend_getD_lt _ _ _ (by omega), schedExtend_getD_lt _ _ _ (by omega),
          schedExtend_getD_lt _ _ _ (by omega), schedExtend_getD_lt _ _ _ (by omega),
          schedExtend_getD_lt _ _ _ (by omega)]
      rw [hpref (ws.length - 2) (by omega), hpref (ws.length - 7) (by omega),
          hpref (ws.length - 15) (by omega), hpref (ws.length - 16) (by omega)]
      rw [schedStep, List.getD_append_right _ _ _ _ (Nat.le_refl _)]
      simp
    · rw [schedExtend]
      exact ih (schedStep ws) (by rw [schedStep_length]; omega) k
        (by rw [schedStep_length]; omega) (by rw [schedStep_length]; omega)

theorem initW_length (data : List Nat) : (initW data).length = 16 := by simp [initW]

theorem initW_getD (data : List Nat) (i : Nat) (hi : i < 16) :
    (initW data).getD i 0 = beWord data i := by
  rw [List.getD_eq_getElem _ _ (by simp [initW_length]; omega)]
  simp [initW]

theorem msgSchedule_length (data : List Nat) : (msgSchedule data).length = 64 := by
  rw [msgSchedule, schedExtend_length, initW_length]

theorem msgSchedule_getD_lt (data : List Nat) (i : Nat) (hi : i < 16) :
    (msgSchedule data).getD i 0 = beWord data i := by
  rw [msgSchedule, schedExtend_getD_lt _ _ _ (by rw [initW_length]; omega), initW_getD _ _ hi]

theorem msgSchedule_getD_rec (data : List Nat) (i : Nat) (h1 : 16 ≤ i) (h2 : i < 64) :
    (msgSchedule data).getD i 0 =
      (sig1 ((msgSchedule data).getD (i - 2) 0) + (msgSchedule data).getD (i - 7) 0 +
       sig0 ((msgSchedule data).getD (i - 15) 0) + (msgSchedule data).getD (i - 16) 0) % M32 := by
  rw [msgSchedule]
  exact schedExtend_getD_rec _ _ (by rw [initW_length]) i (by rw [initW_length]; omega)
    (by rw [initW_length]; omega)

theorem msgSchedule_getD_eq_specW (data : List Nat) :
    ∀ i, i < 64 → (msgSchedule data).getD i 0 = specW data i := by
  intro i
  induction i using Nat.strong_induction_on with
  | _ i ih =>
    intro h64
    by_cases h16 : i < 16
    · rw [msgSchedule_getD_lt _ _ h16, specW]
      simp [h16]
    · rw [msgSchedule_getD_rec _ _ (by omega) h64, specW]
      simp only [h16, dite_false]
      rw [ih (i - 2) (by omega) (by omega), ih (i - 7) (by omega) (by omega),
          ih (i - 15) (by omega) (by omega), ih (i - 16) (by omega) (by omega)]

/-! ## Lemmas: the round loop -/

theorem foldl_zip_eq_specRoundsFrom :
    ∀ (ks ms : List Nat) (kf mf : Nat → Nat) (i : Nat) (w : Work),
      (∀ j, j < ks.length → ks.getD j 0 = kf (i + j)) →
      (∀ j, j < ms.length → ms.getD j 0 = mf (i + j)) →
      ks.length = ms.length →
      (List.zip ks ms).foldl (fun w km => roundStep w km.1 km.2) w =
        specRoundsFrom kf mf i ks.length w := by
  intro ks
  induction ks with
  | nil =>
    intro ms kf mf i w _ _ hlen
    have : ms = [] := List.length_eq_zero.mp hlen.symm
    subst this
    rfl
  | cons k ks ih =>
    intro ms kf mf i w hk hm hlen
    cases ms with
    | nil => simp at hlen
    | cons m ms =>
      have hk0 : k = kf i := by simpa using hk 0 (by simp)
      have hm0 : m = mf i := by simpa using hm 0 (by simp)
      have hlen' : ks.length = ms.length := by simpa using hlen
      simp only [List.zip_cons_cons, List.foldl_cons, List.length_cons]
      rw [show ks.length + 1 = Nat.succ ks.length from rfl, specRoundsFrom]
      rw [← hk0, ← hm0]
      exact ih ms kf mf (i + 1) (roundStep w k m)
        (fun j hj => by simpa [Nat.add_assoc, Nat.add_comm 1 j] using hk (j + 1) (by simp; omega))
        (fun j hj => by simpa [Nat.add_assoc, Nat.add_comm 1 j] using hm (j + 1) (by simp; omega))
        hlen'

theorem Kconst_length : Kconst.length = 64 := rfl

theorem transform_eq_specCompress (st block : List Nat) :
    SHA256.Transform st block = specCompress st block := by
  rw [SHA256.Transform, specCompress]
  have h := foldl_zip_eq_specRoundsFrom Kconst (msgSchedule block)
    (fun i => Kconst.getD i 0) (specW block) 0 (workInit st)
    (fun j _ => by simp)
    (fun j hj => by
      simp only [Nat.zero_add]
      exact msgSchedule_getD_eq_specW block j (by rw [msgSchedule_length] at hj; omega))
    (by rw [Kconst_length, msgSchedule_length])
  rw [Kconst_length] at h
  rw [h]

/-! ## Lemmas: the 33-byte padding path -/

theorem replicate_zero_getD (n k : Nat) : (List.replicate n 0).getD k 0 = 0 := by
  rcases Nat.lt_or_ge k n with h | h
  · rw [List.getD_eq_getElem _ _ (by simp; omega)]
    simp
  · exact List.getD_eq_default _ _ (by simp; omega)

theorem setBytes_single_getD_ne (buf : List Nat) (off v k : Nat) (hne : k ≠ off) :
    (setBytes buf off [v]).getD k 0 = buf.getD k 0 := by
  rcases Nat.lt_or_ge k off with h | h
  · exact setBytes_getD_lt _ _ _ _ h
  · exact setBytes_getD_ge _ _ _ _ (by simp; omega)

theorem setBytes_single_getD_eq (buf : List Nat) (off v : Nat) (hbuf : off < buf.length) :
    (setBytes buf off [v]).getD off 0 = v := by
  rw [setBytes_getD_mid _ _ _ _ (Nat.le_refl _) (by simp) hbuf]
  simp

theorem writeLen_eight (buf : List Nat) (bc : Nat) :
    writeLen buf bc 8 =
      setBytes (setBytes (setBytes (setBytes (setBytes (setBytes (setBytes (setBytes
        buf 63 [bc &&& 255]) 62 [(bc >>> 8) &&& 255]) 61 [(bc >>> 16) &&& 255])
        60 [(bc >>> 24) &&& 255]) 59 [(bc >>> 32) &&& 255]) 58 [(bc >>> 40) &&& 255])
        57 [(bc >>> 48) &&& 255]) 56 [(bc >>> 56) &&& 255] := by
  simp only [writeLen]
  simp [← Nat.shiftRight_add]

/-- The buffer handed to the single `Transform` call of `SHA256::Final` on the
33-byte path equals the spec's padded block. -/
theorem padBuffer33 (data buf0 : List Nat) (h33 : data.length = 33) (h64 : buf0.length = 64) :
    writeLen (setBytes (setBytes (setBytes buf0 0 data) 33 [128]) 34 (List.replicate 22 0)) 264 8
      = data ++ 128 :: (List.replicate 22 0 ++ [0, 0, 0, 0, 0, 0, 1, 8]) := by
  have hB1 : (setBytes buf0 0 data).length = 64 := by rw [setBytes_length, h64]
  have hB2 : (setBytes (setBytes buf0 0 data) 33 [128]).length = 64 := by
    rw [setBytes_length, hB1]
  have hB3 : (setBytes (setBytes (setBytes buf0 0 data) 33 [128]) 34
      (List.replicate 22 0)).length = 64 := by
    rw [setBytes_length, hB2]
  have hrep : (List.replicate 22 (0 : Nat)).length = 22 := by simp
  have hone : ([128] : List Nat).length = 1 := rfl
  apply List.ext_getElem
  · rw [writeLen_length, hB3]
    simp [h33]
  intro k hk1 hk2
  rw [← List.getD_eq_getElem _ 0 hk1, ← List.getD_eq_getElem _ 0 hk2]
  have hk : k < 64 := by rw [writeLen_length, hB3] at hk1; exact hk1
  rcases Nat.lt_or_ge k 33 with h33k | h33k
  · rw [writeLen_getD_lt _ _ _ _ (by omega), setBytes_getD_lt _ _ _ _ (by omega),
        setBytes_getD_lt _ _ _ _ (by omega),
        setBytes_getD_mid _ _ _ _ (by omega) (by omega) (by omega),
        List.getD_append _ _ _ _ (by omega)]
    simp
  rcases Nat.eq_or_lt_of_le h33k with h33e | h34k
  · rw [← h33e, writeLen_getD_lt _ _ _ _ (by omega), setBytes_getD_lt _ _ _ _ (by omega),
        setBytes_getD_mid _ _ _ _ (by omega) (by omega) (by omega),
        List.getD_append_right _ _ _ _ (by omega), h33]
    simp
  rcases Nat.lt_or_ge k 56 with h56k | h56k
  · rw [writeLen_getD_lt _ _ _ _ (by omega),
        setBytes_getD_mid _ _ _ _ (by omega) (by omega) (by omega),
        List.getD_append_right _ _ _ _ (by omega)]
    have hsub : k - data.length = (k - 34) + 1 := by omega
    rw [hsub, List.getD_cons_succ, List.getD_append _ _ _ _ (by omega)]
  · rw [writeLen_eight, List.getD_append_right _ _ _ _ (by omega), h33]
    interval_cases k <;>
        (repeat rw [setBytes_single_getD_ne _ _ _ _ (by omega)]) <;>
      rw [setBytes_single_getD_eq _ _ _ (by simp [setBytes_length, h64])] <;> decide

/-! ## The 33-byte one-shot hash path -/

theorem update33 (data buf0 : List Nat) (h33 : data.length = 33) :
    SHA256.Update (SHA256.Init buf0) data =
      { state := initHash, count := 33, buffer := setBytes buf0 0 data } := by
  rw [SHA256.Update, SHA256.Init]
  simp [h33]

theorem final33 (data buf0 : List Nat) :
    SHA256.Final { state := initHash, count := 33, buffer := setBytes buf0 0 data } =
      stateToBytes (SHA256.Transform initHash
        (writeLen (setBytes (setBytes (setBytes buf0 0 data) 33 [128]) 34
          (List.replicate 22 0)) 264 8)) := by
  rw [SHA256.Final]
  norm_num

/-- On a 33-byte input, `SHA256::Hash` performs exactly one compression, of
the single padded block. -/
theorem hash33_eq (data buf0 : List Nat) (h33 : data.length = 33) (h64 : buf0.length = 64) :
    SHA256.Hash buf0 data =
      stateToBytes (SHA256.Transform initHash
        (data ++ 128 :: (List.replicate 22 0 ++ [0, 0, 0, 0, 0, 0, 1, 8]))) := by
  rw [SHA256.Hash, update33 data buf0 h33, final33 data buf0, padBuffer33 data buf0 h33 h64]

theorem chunks64_nil : chunks64 [] = [] := by
  rw [chunks64]
  simp

theorem chunks64_single (l : List Nat) (h : l.length = 64) : chunks64 l = [l] := by
  rw [chunks64]
  rw [dif_neg (by intro h0; subst h0; simp at h)]
  rw [List.take_of_length_le (by omega), List.drop_eq_nil_of_le (by omega), chunks64_nil]

/-- For a 33-byte message the FIPS digest is one compression of the single
padded block. -/
theorem fipsSha256_33 (data : List Nat) (h33 : data.length = 33) :
    fipsSha256 data = stateToBytes (specCompress initHash
      (data ++ 128 :: (List.replicate 22 0 ++ [0, 0, 0, 0, 0, 0, 1, 8]))) := by
  rw [fipsSha256, fipsPad, h33]
  norm_num [beBytes64]
  rw [chunks64_single _ (by simp [h33])]
  simp [show (264 : Nat) &&& 255 = 8 by decide]

/-! ## Claim theorems: C1, C3, C4, C5 -/

/-- C1: for every input record of exactly 33 bytes, the engine's per-record
hash (the spec-modelled lane program) and the Reference Engine's
`SHA256::Hash` both equal the FIPS 180-4 SHA-256 digest of those bytes; in
particular on the test vector `0279be…98` both produce
`0f715baf5d4c2ed329785cef29e562f73488c8a2bb9dbc5700b361d54b9b0554`. -/
theorem C1_record_digest_matches_fips (data buf0 : List Nat) (h33 : data.length = 33)
    (hbytes : ∀ b ∈ data, b < 256) (h64 : buf0.length = 64) :
    laneHash data = fipsSha256 data ∧
    SHA256.Hash buf0 data = fipsSha256 data ∧
    laneHash testPubkey = testDigest ∧
    SHA256.Hash (List.replicate 64 0) testPubkey = testDigest ∧
    fipsSha256 testPubkey = testDigest := by
  refine ⟨?_, ?_, ?_, ?_, ?_⟩
  · rw [laneHash, fipsSha256_33 data h33]
  · rw [hash33_eq data buf0 h33 h64, fipsSha256_33 data h33, transform_eq_specCompress]
  · rw [laneHash, ← transform_eq_specCompress]
    decide
  · decide
  · rw [fipsSha256_33 testPubkey (by decide), ← transform_eq_specCompress]
    decide

theorem C1_record_digest_matches_fips_witness :
    testPubkey.length = 33 ∧ (∀ b ∈ testPubkey, b < 256) ∧
    (List.replicate 64 0 : List Nat).length = 64 ∧
    (laneHash testPubkey = fipsSha256 testPubkey ∧
     SHA256.Hash (List.replicate 64 0) testPubkey = fipsSha256 testPubkey ∧
     laneHash testPubkey = testDigest ∧
     SHA256.Hash (List.replicate 64 0) testPubkey = testDigest ∧
     fipsSha256 testPubkey = testDigest) :=
  ⟨by decide, by decide, by decide,
   C1_record_digest_matches_fips testPubkey (List.replicate 64 0) (by decide) (by decide) (by decide)⟩

/-- C3: on a 33-byte message the code builds exactly one 64-byte padded
block — bytes 0–32 the message, byte 33 `0x80`, bytes 34–55 zero, bytes
56–63 the big-endian encoding of 264 — and applies the compression function
to it exactly once (the digest is one `Transform` of that block from the
initial state: `Update` takes its no-compression branch and `Final` its
single-block branch). -/
theorem C3_padding_single_block (data buf0 : List Nat) (h33 : data.length = 33)
    (h64 : buf0.length = 64) :
    SHA256.Hash buf0 data =
      stateToBytes (SHA256.Transform initHash
        (data ++ 128 :: (List.replicate 22 0 ++ [0, 0, 0, 0, 0, 0, 1, 8]))) ∧
    (data ++ 128 :: (List.replicate 22 0 ++ [0, 0, 0, 0, 0, 0, 1, 8])).length = 64 ∧
    (data ++ 128 :: (List.replicate 22 0 ++ [0, 0, 0, 0, 0, 0, 1, 8])).take 33 = data ∧
    (data ++ 128 :: (List.replicate 22 0 ++ [0, 0, 0, 0, 0, 0, 1, 8])).getD 33 0 = 128 ∧
    (∀ i, 34 ≤ i → i < 56 →
      (data ++ 128 :: (List.replicate 22 0 ++ [0, 0, 0, 0, 0, 0, 1, 8])).getD i 0 = 0) ∧
    (data ++ 128 :: (List.replicate 22 0 ++ [0, 0, 0, 0, 0, 0, 1, 8])).drop 56 =
      [0, 0, 0, 0, 0, 0, 1, 8] := by
  refine ⟨hash33_eq data buf0 h33 h64, by simp [h33], ?_, ?_, ?_, ?_⟩
  · rw [← h33, List.take_left]
  · rw [List.getD_append_right _ _ _ _ (by omega), h33]
    simp
  · intro i h1 h2
    rw [List.getD_append_right _ _ _ _ (by omega)]
    have hsub : i - data.length = (i - 34) + 1 := by omega
    rw [hsub, List.getD_cons_succ, List.getD_append _ _ _ _ (by simp; omega),
        replicate_zero_getD]
  · have hsplit : data ++ 128 :: (List.replicate 22 0 ++ ([0, 0, 0, 0, 0, 0, 1, 8] : List Nat)) =
        (data ++ 128 :: List.replicate 22 0) ++ [0, 0, 0, 0, 0, 0, 1, 8] := by simp
    rw [hsplit, show (56 : Nat) = (data ++ 128 :: List.replicate 22 0).length by simp [h33],
        List.drop_left]

theorem C3_padding_single_block_witness :
    testPubkey.length = 33 ∧ (List.replicate 64 0 : List Nat).length = 64 ∧
    (SHA256.Hash (List.replicate 64 0) testPubkey =
      stateToBytes (SHA256.Transform initHash
        (testPubkey ++ 128 :: (List.replicate 22 0 ++ [0, 0, 0, 0, 0, 0, 1, 8]))) ∧
    (testPubkey ++ 128 :: (List.replicate 22 0 ++ [0, 0, 0, 0, 0, 0, 1, 8])).length = 64 ∧
    (testPubkey ++ 128 :: (List.replicate 22 0 ++ [0, 0, 0, 0, 0, 0, 1, 8])).take 33 = testPubkey ∧
    (testPubkey ++ 128 :: (List.replicate 22 0 ++ [0, 0, 0, 0, 0, 0, 1, 8])).getD 33 0 = 128 ∧
    (∀ i, 34 ≤ i → i < 56 →
      (testPubkey ++ 128 :: (List.replicate 22 0 ++ [0, 0, 0, 0, 0, 0, 1, 8])).getD i 0 = 0) ∧
    (testPubkey ++ 128 :: (List.replicate 22 0 ++ [0, 0, 0, 0, 0, 0, 1, 8])).drop 56 =
      [0, 0, 0, 0, 0, 0, 1, 8]) :=
  ⟨by decide, by decide,
   C3_padding_single_block testPubkey (List.replicate 64 0) (by decide) (by decide)⟩

/-- C4: the message schedule of `SHA256::Transform` satisfies the FIPS
recurrence — `W[0..15]` are the big-endian words of the block and, for
`16 ≤ i < 64`, `W[i] = σ1(W[i-2]) + W[i-7] + σ0(W[i-15]) + W[i-16]` modulo
`2^32`, over the originally computed values (the embedded schedule, like the
C++ `m[64]` array, never overwrites an entry) — and on the padded test
block, `W[16] = 0x1085d5f6` and `W[17] = 0x38699114`. -/
theorem C4_message_schedule (block : List Nat) (hb : block.length = 64) :
    (∀ i, i < 16 → (msgSchedule block).getD i 0 = beWord block i) ∧
    (∀ i, 16 ≤ i → i < 64 →
      (msgSchedule block).getD i 0 =
        (sig1 ((msgSchedule block).getD (i - 2) 0) + (msgSchedule block).getD (i - 7) 0 +
         sig0 ((msgSchedule block).getD (i - 15) 0) +
         (msgSchedule block).getD (i - 16) 0) % M32) ∧
    (msgSchedule paddedTestBlock).getD 16 0 = 0x1085d5f6 ∧
    (msgSchedule paddedTestBlock).getD 17 0 = 0x38699114 :=
  ⟨fun i hi => msgSchedule_getD_lt block i hi,
   fun i h1 h2 => msgSchedule_getD_rec block i h1 h2,
   by decide, by decide⟩

theorem C4_message_schedule_witness :
    paddedTestBlock.length = 64 ∧
    ((∀ i, i < 16 → (msgSchedule paddedTestBlock).getD i 0 = beWord paddedTestBlock i) ∧
    (∀ i, 16 ≤ i → i < 64 →
      (msgSchedule paddedTestBlock).getD i 0 =
        (sig1 ((msgSchedule paddedTestBlock).getD (i - 2) 0) +
         (msgSchedule paddedTestBlock).getD (i - 7) 0 +
         sig0 ((msgSchedule paddedTestBlock).getD (i - 15) 0) +
         (msgSchedule paddedTestBlock).getD (i - 16) 0) % M32) ∧
    (msgSchedule paddedTestBlock).getD 16 0 = 0x1085d5f6 ∧
    (msgSchedule paddedTestBlock).getD 17 0 = 0x38699114) :=
  ⟨by decide, C4_message_schedule paddedTestBlock (by decide)⟩

/-- C5: `SHA256::Transform` — initialize `a..h` from the state, 64 rounds of
`T1 = h + Σ1(e) + Ch(e,f,g) + K[i] + W[i]`, `T2 = Σ0(a) + Maj(a,b,c)` with
the register shift, then fold back by wrapping addition — agrees with the
spec's indexed formulation of the same compression function on every state
and block; both are pure functions of exactly the state and the block. -/
theorem C5_compression_refines_spec (st block : List Nat) (hst : st.length = 8)
    (hb : block.length = 64) :
    SHA256.Transform st block = specCompress st block :=
  transform_eq_specCompress st block

theorem C5_compression_refines_spec_witness :
    initHash.length = 8 ∧ paddedTestBlock.length = 64 ∧
    SHA256.Transform initHash paddedTestBlock = specCompress initHash paddedTestBlock :=
  ⟨by decide, by decide, C5_compression_refines_spec initHash paddedTestBlock (by decide) (by decide)⟩

/-! ## The batch dispatcher `PTX_SHA256::hash_batch` (include/ptx_sha256.hpp)

The CUDA driver is not part of the source tree; each driver call's outcome
is a parameter of the model (`CudaEnv`), and device memory is an explicit
allocator state, so that the dispatcher's own control flow — the early
return, the free-before-return on every failure path, and the copy-back
only after synchronization — is embedded exactly as written. -/

/-- The success/failure outcome of each CUDA driver call made by one
`hash_batch` call: `cuMemAlloc` (twice), `cuMemcpyHtoD`, `cuLaunchKernel`,
`cuCtxSynchronize`, `cuMemcpyDtoH`. -/
structure CudaEnv where
  allocInputOk : Bool
  allocOutputOk : Bool
  copyInOk : Bool
  launchOk : Bool
  syncOk : Bool
  copyOutOk : Bool
deriving DecidableEq, Repr

/-- The `PTX_SHA256` engine state that `hash_batch` reads: the
`initialized_` flag (the opaque `module_`/`kernel_`/`context_` handles do
not influence the modelled control flow). -/
structure Engine where
  initialized_ : Bool
deriving DecidableEq, Repr

/-- Device memory: a fresh-id allocator and the list of live allocations. -/
structure DeviceState where
  nextId : Nat
  live : List Nat
deriving DecidableEq, Repr

/-- `cuMemAlloc`: on success return a fresh device pointer and record it
live; on failure allocate nothing. -/
def cuMemAlloc (dev : DeviceState) (ok : Bool) : Option (Nat × DeviceState) :=
  if ok then some (dev.nextId, ⟨dev.nextId + 1, dev.live ++ [dev.nextId]⟩) else none

/-- `cuMemFree`: drop the pointer from the live list. -/
def cuMemFree (dev : DeviceState) (p : Nat) : DeviceState :=
  ⟨dev.nextId, dev.live.erase p⟩

/-- `size_t input_size = num_keys * 33` (line 73): `num_keys` is `uint32_t`
and `33` an `int`, so the product is computed in 32-bit unsigned arithmetic
(wrapping modulo `2^32`) before widening to `size_t`. -/
def stagedInputSize (num_keys : Nat) : Nat := num_keys * 33 % 4294967296

/-- `size_t output_size = num_keys * 32` (line 74), same 32-bit product. -/
def stagedOutputSize (num_keys : Nat) : Nat := num_keys * 32 % 4294967296

/-- Modelled from the spec: the grid of lanes launched by `hash_batch`
(the `sha256_kernel` of the generated PTX, which is not in the source
tree). Spec.md §4.3–§4.4: lane `i` reads the 33 bytes at input offset
`33*i` and writes its 32-byte digest at output offset `32*i`; no lane reads
another lane's input or output. -/
def batchDigests (input : List Nat) (n : Nat) : List Nat :=
  (List.range n).flatMap fun i => laneHash ((input.drop (33 * i)).take 33)

/-- What one `hash_batch` call returns and does: the C++ `bool` result, the
engine and device state after the call, the caller's output buffer (`none` =
never written), and the staging allocations made and freed during the call. -/
structure BatchReturn where
  ok : Bool
  eng : Engine
  dev : DeviceState
  output : Option (List Nat)
  allocs : List Nat
  frees : List Nat
deriving DecidableEq, Repr

/-- `PTX_SHA256::hash_batch` (lines 65–149). Branch for branch: the
`initialized_` early return; two staging allocations (the second failure
freeing the first); host-to-device copy, launch, synchronize, each failure
freeing both staging buffers; the device-to-host copy of `output_size`
bytes happening only after successful synchronization; and the
unconditional frees on success. The kernel's effect on device memory is
`batchDigests` of the staged bytes. -/
def hash_batch (eng : Engine) (dev : DeviceState) (env : CudaEnv)
    (h_input : List Nat) (num_keys : Nat) : BatchReturn :=
  if eng.initialized_ = false then
    ⟨false, eng, dev, none, [], []⟩
  else
    let input_size := stagedInputSize num_keys
    let output_size := stagedOutputSize num_keys
    match cuMemAlloc dev env.allocInputOk with
    | none => ⟨false, eng, dev, none, [], []⟩
    | some (d_input, dev1) =>
      match cuMemAlloc dev1 env.allocOutputOk with
      | none => ⟨false, eng, cuMemFree dev1 d_input, none, [d_input], [d_input]⟩
      | some (d_output, dev2) =>
        if env.copyInOk = false then
          ⟨false, eng, cuMemFree (cuMemFree dev2 d_input) d_output, none,
           [d_input, d_output], [d_input, d_output]⟩
        else
          let staged := h_input.take input_size
          if env.launchOk = false then
            ⟨false, eng, cuMemFree (cuMemFree dev2 d_input) d_output, none,
             [d_input, d_output], [d_input, d_output]⟩
          else if env.syncOk = false then
            ⟨false, eng, cuMemFree (cuMemFree dev2 d_input) d_output, none,
             [d_input, d_output], [d_input, d_output]⟩
          else if env.copyOutOk = false then
            ⟨false, eng, cuMemFree (cuMemFree dev2 d_input) d_output, none,
             [d_input, d_output], [d_input, d_output]⟩
          else
            ⟨true, eng, cuMemFree (cuMemFree dev2 d_input) d_output,
             some ((batchDigests staged num_keys).take output_size),
             [d_input, d_output], [d_input, d_output]⟩

/-! ## Lemmas: the batch dispatcher -/

theorem stateToBytes_length (st : List Nat) : (stateToBytes st).length = 32 := rfl

theorem laneHash_length (rec : List Nat) : (laneHash rec).length = 32 := rfl

theorem batchDigests_succ (input : List Nat) (n : Nat) :
    batchDigests input (n + 1) =
      batchDigests input n ++ laneHash ((input.drop (33 * n)).take 33) := by
  rw [batchDigests, batchDigests, List.range_succ, List.flatMap_append]
  simp

theorem batchDigests_length (input : List Nat) (n : Nat) :
    (batchDigests input n).length = 32 * n := by
  induction n with
  | zero => rfl
  | succ n ih => rw [batchDigests_succ, List.length_append, ih, laneHash_length]; omega

theorem batchDigests_slice (input : List Nat) (n i : Nat) (hi : i < n) :
    ((batchDigests input n).drop (32 * i)).take 32 =
      laneHash ((input.drop (33 * i)).take 33) := by
  induction n with
  | zero => omega
  | succ n ih =>
    rw [batchDigests_succ]
    rcases Nat.lt_or_ge i n with h | h
    · rw [List.drop_append_eq_append_drop,
          show 32 * i - (batchDigests input n).length = 0 by rw [batchDigests_length]; omega,
          List.take_append_eq_append_take]
      have hdl : ((batchDigests input n).drop (32 * i)).length = 32 * n - 32 * i := by
        rw [List.length_drop, batchDigests_length]
      rw [show 32 - ((batchDigests input n).drop (32 * i)).length = 0 by rw [hdl]; omega]
      rw [List.take_zero, List.append_nil, ih h]
    · have hin : i = n := by omega
      subst hin
      rw [List.drop_append_eq_append_drop,
          List.drop_eq_nil_of_le (by rw [batchDigests_length]),
          show 32 * i - (batchDigests input i).length = 0 by rw [batchDigests_length]; omega]
      rw [List.nil_append, List.drop_zero, List.take_of_length_le (laneHash_length _).le]

theorem hash_batch_eng (eng : Engine) (dev : DeviceState) (env : CudaEnv)
    (input : List Nat) (n : Nat) : (hash_batch eng dev env input n).eng = eng := by
  obtain ⟨ei⟩ := eng
  obtain ⟨a, b, c, d, e, f⟩ := env
  cases ei <;> cases a <;> cases b <;> cases c <;> cases d <;> cases e <;> cases f <;> rfl

theorem hash_batch_frees_eq_allocs (eng : Engine) (dev : DeviceState) (env : CudaEnv)
    (input : List Nat) (n : Nat) :
    (hash_batch eng dev env input n).frees = (hash_batch eng dev env input n).allocs := by
  obtain ⟨ei⟩ := eng
  obtain ⟨a, b, c, d, e, f⟩ := env
  cases ei <;> cases a <;> cases b <;> cases c <;> cases d <;> cases e <;> cases f <;> rfl

theorem hash_batch_fail_output (eng : Engine) (dev : DeviceState) (env : CudaEnv)
    (input : List Nat) (n : Nat) (hf : (hash_batch eng dev env input n).ok = false) :
    (hash_batch eng dev env input n).output = none := by
  obtain ⟨ei⟩ := eng
  obtain ⟨a, b, c, d, e, f⟩ := env
  revert hf
  cases ei <;> cases a <;> cases b <;> cases c <;> cases d <;> cases e <;> cases f <;>
    (intro hf; first | rfl | exact Bool.noConfusion (show true = false from hf))

theorem hash_batch_ok_output (eng : Engine) (dev : DeviceState) (env : CudaEnv)
    (input : List Nat) (n : Nat) (hok : (hash_batch eng dev env input n).ok = true) :
    (hash_batch eng dev env input n).output =
      some ((batchDigests (input.take (stagedInputSize n)) n).take (stagedOutputSize n)) := by
  obtain ⟨ei⟩ := eng
  obtain ⟨a, b, c, d, e, f⟩ := env
  revert hok
  cases ei <;> cases a <;> cases b <;> cases c <;> cases d <;> cases e <;> cases f <;>
    (intro hok; first | rfl | exact Bool.noConfusion (show false = true from hok))

theorem erase_appended_fresh (l : List Nat) (x : Nat) (hx : x ∉ l) :
    (l ++ [x]).erase x = l := by
  rw [List.erase_append_right _ hx, List.erase_cons_head, List.append_nil]

theorem hash_batch_live (eng : Engine) (dev : DeviceState) (env : CudaEnv)
    (input : List Nat) (n : Nat) (hfresh : ∀ x ∈ dev.live, x < dev.nextId) :
    (hash_batch eng dev env input n).dev.live = dev.live := by
  have h1 : dev.nextId ∉ dev.live := fun hmem => absurd (hfresh _ hmem) (by omega)
  have h2 : dev.nextId + 1 ∉ dev.live := fun hmem => absurd (hfresh _ hmem) (by omega)
  have hfree1 : (dev.live ++ [dev.nextId]).erase dev.nextId = dev.live :=
    erase_appended_fresh _ _ h1
  have hfree2 : (((dev.live ++ [dev.nextId]) ++ [dev.nextId + 1]).erase
      dev.nextId).erase (dev.nextId + 1) = dev.live := by
    rw [List.erase_append_left _ (by simp), hfree1, erase_appended_fresh _ _ h2]
  obtain ⟨ei⟩ := eng
  obtain ⟨a, b, c, d, e, f⟩ := env
  cases ei <;> cases a <;> cases b <;> cases c <;> cases d <;> cases e <;> cases f <;>
    first | rfl | exact hfree1 | exact hfree2

theorem hash_batch_output_dev_irrel (eng : Engine) (dev dev' : DeviceState) (env : CudaEnv)
    (input : List Nat) (n : Nat) :
    (hash_batch eng dev env input n).output = (hash_batch eng dev' env input n).output ∧
    (hash_batch eng dev env input n).ok = (hash_batch eng dev' env input n).ok := by
  obtain ⟨ei⟩ := eng
  obtain ⟨a, b, c, d, e, f⟩ := env
  cases ei <;> cases a <;> cases b <;> cases c <;> cases d <;> cases e <;> cases f <;>
    exact ⟨rfl, rfl⟩

/-! ## Claim theorems: C2, C6, C7, C8, C9, C10 -/

/-- C2: whenever `hash_batch` succeeds on a batch whose sizes do not wrap,
the 32 bytes at output offset `32*i` are the lane digest of the 33 bytes at
input offset `33*i`, for every index `i` of the batch — output order follows
input order. -/
theorem C2_output_order_follows_input (eng : Engine) (dev : DeviceState) (env : CudaEnv)
    (input : List Nat) (n i : Nat)
    (hok : (hash_batch eng dev env input n).ok = true)
    (hlen : input.length = n * 33) (hwrap : n * 33 < 4294967296) (hi : i < n) :
    (hash_batch eng dev env input n).output.map (fun out => (out.drop (32 * i)).take 32) =
      some (laneHash ((input.drop (33 * i)).take 33)) := by
  rw [hash_batch_ok_output eng dev env input n hok]
  have hin : stagedInputSize n = n * 33 := by unfold stagedInputSize; omega
  have hout : stagedOutputSize n = 32 * n := by unfold stagedOutputSize; omega
  rw [hin, hout, List.take_of_length_le hlen.le,
      List.take_of_length_le (batchDigests_length input n).le]
  simp only [Option.map_some']
  rw [batchDigests_slice input n i hi]

theorem C2_output_order_follows_input_witness :
    (hash_batch ⟨true⟩ ⟨0, []⟩ ⟨true, true, true, true, true, true⟩
        (testPubkey ++ testPubkey) 2).ok = true ∧
    (testPubkey ++ testPubkey).length = 2 * 33 ∧ 2 * 33 < 4294967296 ∧ 1 < 2 ∧
    (hash_batch ⟨true⟩ ⟨0, []⟩ ⟨true, true, true, true, true, true⟩
        (testPubkey ++ testPubkey) 2).output.map (fun out => (out.drop (32 * 1)).take 32) =
      some (laneHash (((testPubkey ++ testPubkey).drop (33 * 1)).take 33)) :=
  ⟨by decide, by decide, by decide, by decide,
   C2_output_order_follows_input ⟨true⟩ ⟨0, []⟩ ⟨true, true, true, true, true, true⟩
     (testPubkey ++ testPubkey) 2 1 (by decide) (by decide) (by decide) (by decide)⟩

/-- C6: on every exit path of `hash_batch` the staging allocations made by
the call are exactly the ones freed before it returns, the device live set
is restored, and in particular when the first allocation succeeds and the
second fails, exactly the first allocation was made and it is freed. -/
theorem C6_staging_released_every_path (eng : Engine) (dev : DeviceState) (env : CudaEnv)
    (input : List Nat) (n : Nat) (hfresh : ∀ x ∈ dev.live, x < dev.nextId) :
    (hash_batch eng dev env input n).frees = (hash_batch eng dev env input n).allocs ∧
    (hash_batch eng dev env input n).dev.live = dev.live ∧
    (eng.initialized_ = true → env.allocInputOk = true → env.allocOutputOk = false →
      (hash_batch eng dev env input n).allocs = [dev.nextId] ∧
      (hash_batch eng dev env input n).frees = [dev.nextId]) := by
  refine ⟨hash_batch_frees_eq_allocs eng dev env input n,
    hash_batch_live eng dev env input n hfresh, ?_⟩
  intro hinit h1 h2
  obtain ⟨ei⟩ := eng
  obtain ⟨a, b, c, d, e, f⟩ := env
  simp only at hinit h1 h2
  subst hinit h1 h2
  exact ⟨rfl, rfl⟩

theorem C6_staging_released_every_path_witness :
    (∀ x ∈ ([] : List Nat), x < 0) ∧
    ((hash_batch ⟨true⟩ ⟨0, []⟩ ⟨true, false, true, true, true, true⟩ [] 5).frees =
       (hash_batch ⟨true⟩ ⟨0, []⟩ ⟨true, false, true, true, true, true⟩ [] 5).allocs ∧
     (hash_batch ⟨true⟩ ⟨0, []⟩ ⟨true, false, true, true, true, true⟩ [] 5).dev.live = [] ∧
     ((true : Bool) = true → (true : Bool) = true → (false : Bool) = false →
       (hash_batch ⟨true⟩ ⟨0, []⟩ ⟨true, false, true, true, true, true⟩ [] 5).allocs = [0] ∧
       (hash_batch ⟨true⟩ ⟨0, []⟩ ⟨true, false, true, true, true, true⟩ [] 5).frees = [0])) :=
  ⟨by decide,
   C6_staging_released_every_path ⟨true⟩ ⟨0, []⟩ ⟨true, false, true, true, true, true⟩ [] 5
     (by decide)⟩

/-- C7: `hash_batch` never writes a partial or garbage result: on every
failure return the caller's output buffer is untouched, and on success (with
non-wrapping sizes) it holds exactly the `N` lane digests, `32*N` bytes. -/
theorem C7_all_or_nothing_output (eng : Engine) (dev : DeviceState) (env : CudaEnv)
    (input : List Nat) (n : Nat) :
    ((hash_batch eng dev env input n).ok = false →
      (hash_batch eng dev env input n).output = none) ∧
    ((hash_batch eng dev env input n).ok = true → input.length = n * 33 →
      n * 33 < 4294967296 →
      (hash_batch eng dev env input n).output = some (batchDigests input n) ∧
      (batchDigests input n).length = 32 * n) := by
  constructor
  · exact hash_batch_fail_output eng dev env input n
  · intro hok hlen hwrap
    rw [hash_batch_ok_output eng dev env input n hok]
    have hin : stagedInputSize n = n * 33 := by unfold stagedInputSize; omega
    have hout : stagedOutputSize n = 32 * n := by unfold stagedOutputSize; omega
    rw [hin, hout, List.take_of_length_le hlen.le,
        List.take_of_length_le (batchDigests_length input n).le]
    exact ⟨rfl, batchDigests_length input n⟩

theorem C7_all_or_nothing_output_witness :
    (hash_batch ⟨true⟩ ⟨0, []⟩ ⟨true, true, false, true, true, true⟩ testPubkey 1).output =
      none ∧
    ((hash_batch ⟨true⟩ ⟨0, []⟩ ⟨true, true, true, true, true, true⟩ testPubkey 1).output =
      some (batchDigests testPubkey 1) ∧
     (batchDigests testPubkey 1).length = 32 * 1) :=
  ⟨(C7_all_or_nothing_output ⟨true⟩ ⟨0, []⟩ ⟨true, true, false, true, true, true⟩
      testPubkey 1).1 (by decide),
   (C7_all_or_nothing_output ⟨true⟩ ⟨0, []⟩ ⟨true, true, true, true, true, true⟩
      testPubkey 1).2 (by decide) (by decide) (by decide)⟩

/-- C8: on an initialized engine, with every device call succeeding, a batch
of count 0 succeeds and writes nothing to the output buffer. -/
theorem C8_empty_batch_succeeds (eng : Engine) (dev : DeviceState) (env : CudaEnv)
    (input : List Nat) (hinit : eng.initialized_ = true)
    (henv : env = ⟨true, true, true, true, true, true⟩) :
    (hash_batch eng dev env input 0).ok = true ∧
    (hash_batch eng dev env input 0).output = some [] := by
  subst henv
  obtain ⟨ei⟩ := eng
  cases ei
  · exact absurd hinit (by decide)
  · exact ⟨rfl, rfl⟩

theorem C8_empty_batch_succeeds_witness :
    (⟨true⟩ : Engine).initialized_ = true ∧
    ((hash_batch ⟨true⟩ ⟨0, []⟩ ⟨true, true, true, true, true, true⟩ [] 0).ok = true ∧
     (hash_batch ⟨true⟩ ⟨0, []⟩ ⟨true, true, true, true, true, true⟩ [] 0).output = some []) :=
  ⟨by decide,
   C8_empty_batch_succeeds ⟨true⟩ ⟨0, []⟩ ⟨true, true, true, true, true, true⟩ [] rfl rfl⟩

/-- C9: `hash_batch` is deterministic and stateless across calls: it leaves
the engine unchanged and the device live set as it found it, and an
immediately repeated call with the same inputs returns the same result and
the same output bytes. -/
theorem C9_idempotent_stateless (eng : Engine) (dev : DeviceState) (env : CudaEnv)
    (input : List Nat) (n : Nat) (hfresh : ∀ x ∈ dev.live, x < dev.nextId) :
    (hash_batch eng dev env input n).eng = eng ∧
    (hash_batch eng dev env input n).dev.live = dev.live ∧
    (hash_batch (hash_batch eng dev env input n).eng (hash_batch eng dev env input n).dev
        env input n).output = (hash_batch eng dev env input n).output ∧
    (hash_batch (hash_batch eng dev env input n).eng (hash_batch eng dev env input n).dev
        env input n).ok = (hash_batch eng dev env input n).ok := by
  refine ⟨hash_batch_eng eng dev env input n, hash_batch_live eng dev env input n hfresh,
    ?_, ?_⟩
  · rw [hash_batch_eng]
    exact ((hash_batch_output_dev_irrel eng (hash_batch eng dev env input n).dev dev
      env input n).1).trans rfl
  · rw [hash_batch_eng]
    exact ((hash_batch_output_dev_irrel eng (hash_batch eng dev env input n).dev dev
      env input n).2).trans rfl

theorem C9_idempotent_stateless_witness :
    (∀ x ∈ ([] : List Nat), x < 0) ∧
    ((hash_batch ⟨true⟩ ⟨0, []⟩ ⟨true, true, true, true, true, true⟩ testPubkey 1).eng =
       ⟨true⟩ ∧
     (hash_batch ⟨true⟩ ⟨0, []⟩ ⟨true, true, true, true, true, true⟩ testPubkey 1).dev.live =
       [] ∧
     (hash_batch
        (hash_batch ⟨true⟩ ⟨0, []⟩ ⟨true, true, true, true, true, true⟩ testPubkey 1).eng
        (hash_batch ⟨true⟩ ⟨0, []⟩ ⟨true, true, true, true, true, true⟩ testPubkey 1).dev
        ⟨true, true, true, true, true, true⟩ testPubkey 1).output =
       (hash_batch ⟨true⟩ ⟨0, []⟩ ⟨true, true, true, true, true, true⟩ testPubkey 1).output ∧
     (hash_batch
        (hash_batch ⟨true⟩ ⟨0, []⟩ ⟨true, true, true, true, true, true⟩ testPubkey 1).eng
        (hash_batch ⟨true⟩ ⟨0, []⟩ ⟨true, true, true, true, true, true⟩ testPubkey 1).dev
        ⟨true, true, true, true, true, true⟩ testPubkey 1).ok =
       (hash_batch ⟨true⟩ ⟨0, []⟩ ⟨true, true, true, true, true, true⟩ testPubkey 1).ok) :=
  ⟨by decide,
   C9_idempotent_stateless ⟨true⟩ ⟨0, []⟩ ⟨true, true, true, true, true, true⟩ testPubkey 1
     (by decide)⟩

/-- C10: the staged input size is computed as `num_keys * 33` in 32-bit
arithmetic: it equals `num_keys × 33` exactly for every count up to
130150524, wraps to a strictly smaller value for every larger 32-bit count,
and `hash_batch` proceeds on such counts without rejecting them. -/
theorem C10_staging_size_wraps :
    (∀ k, k ≤ 130150524 → stagedInputSize k = k * 33) ∧
    (∀ k, 130150524 < k → k < 4294967296 → stagedInputSize k < k * 33) ∧
    (∀ (eng : Engine) (dev : DeviceState) (input : List Nat) (k : Nat),
      eng.initialized_ = true → 130150524 < k →
      (hash_batch eng dev ⟨true, true, true, true, true, true⟩ input k).ok = true) := by
  refine ⟨?_, ?_, ?_⟩
  · intro k hk
    unfold stagedInputSize
    omega
  · intro k h1 h2
    unfold stagedInputSize
    omega
  · intro eng dev input k hinit h
    obtain ⟨ei⟩ := eng
    cases ei
    · exact absurd hinit (by decide)
    · rfl

theorem C10_staging_size_wraps_witness :
    stagedInputSize 130150524 = 130150524 * 33 ∧
    stagedInputSize 130150525 < 130150525 * 33 ∧
    (hash_batch ⟨true⟩ ⟨0, []⟩ ⟨true, true, true, true, true, true⟩ [] 130150525).ok = true :=
  ⟨C10_staging_size_wraps.1 130150524 (by decide),
   C10_staging_size_wraps.2.1 130150525 (by decide) (by decide),
   C10_staging_size_wraps.2.2 ⟨true⟩ ⟨0, []⟩ [] 130150525 rfl (by decide)⟩
